import Mathlib

/-!
Shallow embedding of the lightdash query-model core.

`Lightdash.Common` embeds `packages/common/src/index.ts`: the explore/table/field
data model, field identity (`fieldId`), field classification (`isDimension`),
the filter algebra helpers (`assertFilterableDimension`,
`filterableDimensionsOnly`) and the warehouse-column-type map
(`mapColumnTypeToLightdashType`).

`Lightdash.Explorer` embeds the explorer state layer (`ExplorerProvider`):
the reducer over `ExplorerReduceState`, `toggleArrayValue`, `calcColumnOrder`,
the derived `isValidQuery`, and the `MetricQuery` body built by
`useQueryResults`.

TypeScript string-keyed objects are embedded as association lists (JS object
iteration order is insertion order), `undefined` as `Option.none`, thrown
exceptions as `Except.error`.
-/

namespace Lightdash

namespace Common

/-- The five dimension type tags: `Dimension["type"]`. -/
inductive DimensionType
  | string
  | number
  | timestamp
  | date
  | boolean
deriving DecidableEq

/-- The six measure type tags: `Measure["type"]`. -/
inductive MeasureType
  | average
  | count
  | count_distinct
  | sum
  | min
  | max
deriving DecidableEq

/-- A dimension: discriminator plus name, table, sql and optional description.
The five TypeScript dimension record types differ only in their `type` tag, so
they are embedded as one structure carrying the tag. -/
structure Dimension where
  type : DimensionType
  name : String
  table : String
  sql : String
  description : Option String
deriving DecidableEq

/-- A measure: discriminator plus name, table, sql and optional description. -/
structure Measure where
  type : MeasureType
  name : String
  table : String
  sql : String
  description : Option String
deriving DecidableEq

/-- `Field = Dimension | Measure`. -/
inductive Field
  | dim (d : Dimension)
  | mea (m : Measure)
deriving DecidableEq

/-- The owning table of a field. -/
def Field.table : Field → String
  | .dim d => d.table
  | .mea m => m.table

/-- The name of a field. -/
def Field.name : Field → String
  | .dim d => d.name
  | .mea m => m.name

/-- The runtime string value of the field's `type` discriminator. -/
def dimensionTypeTag : DimensionType → String
  | .string => "string"
  | .number => "number"
  | .timestamp => "timestamp"
  | .date => "date"
  | .boolean => "boolean"

/-- The runtime string value of the measure's `type` discriminator. -/
def measureTypeTag : MeasureType → String
  | .average => "average"
  | .count => "count"
  | .count_distinct => "count_distinct"
  | .sum => "sum"
  | .min => "min"
  | .max => "max"

/-- `field.type` as the runtime string it is in JavaScript. -/
def Field.typeTag : Field → String
  | .dim d => dimensionTypeTag d.type
  | .mea m => measureTypeTag m.type

/-- `fieldId = (field) => `${field.table}_${field.name}``. -/
def fieldId (field : Field) : String := field.table ++ "_" ++ field.name

/-- `isDimension`: the source's exhaustive switch over the eleven type tags. -/
def isDimension (field : Field) : Bool :=
  match field with
  | .dim d =>
    match d.type with
    | .number => true
    | .string => true
    | .boolean => true
    | .date => true
    | .timestamp => true
  | .mea m =>
    match m.type with
    | .average => false
    | .sum => false
    | .min => false
    | .max => false
    | .count_distinct => false
    | .count => false

/-- The runtime switch of `isDimension` on the raw tag string, with the
`default` branch (`throw Error(...)`) embedded as `Except.error`.  In
JavaScript the switch scrutinee is the string `field.type`, so giving the
switch an arbitrary string models what the compiled code does on a type tag
outside the closed set. -/
def isDimensionTag (tag : String) : Except String Bool :=
  if tag = "number" then .ok true
  else if tag = "string" then .ok true
  else if tag = "boolean" then .ok true
  else if tag = "date" then .ok true
  else if tag = "timestamp" then .ok true
  else if tag = "average" then .ok false
  else if tag = "sum" then .ok false
  else if tag = "min" then .ok false
  else if tag = "max" then .ok false
  else if tag = "count_distinct" then .ok false
  else if tag = "count" then .ok false
  else .error ("Is dimension not implemented for type " ++ tag)

/-- `Table`: named unit with a dimensions mapping and a measures mapping.
The `{[fieldName]: ...}` objects are association lists in insertion order. -/
structure Table where
  name : String
  description : Option String
  sqlTable : String
  dimensions : List (String × Dimension)
  measures : List (String × Measure)
deriving DecidableEq

/-- `ExploreJoin`: a joined table name and its templated on-clause. -/
structure ExploreJoin where
  table : String
  sqlOn : String
deriving DecidableEq

/-- `Explore`: base table, joins, and the `{[tableName]: Table}` mapping. -/
structure Explore where
  name : String
  baseTable : String
  joinedTables : List ExploreJoin
  tables : List (String × Table)
deriving DecidableEq

/-- `getDimensions`: `Object.values(explore.tables).flatMap(t => Object.values(t.dimensions))`. -/
def getDimensions (explore : Explore) : List Dimension :=
  (explore.tables.map Prod.snd).flatMap (fun t => t.dimensions.map Prod.snd)

/-- `getMeasures`: `Object.values(explore.tables).flatMap(t => Object.values(t.measures))`. -/
def getMeasures (explore : Explore) : List Measure :=
  (explore.tables.map Prod.snd).flatMap (fun t => t.measures.map Prod.snd)

/-- `getFields = [...getDimensions(explore), ...getMeasures(explore)]`. -/
def getFields (explore : Explore) : List Field :=
  (getDimensions explore).map Field.dim ++ (getMeasures explore).map Field.mea

/-- `assertFilterableDimension`: `some` on string/number, `undefined` otherwise. -/
def assertFilterableDimension (dimension : Dimension) : Option Dimension :=
  match dimension.type with
  | .string => some dimension
  | .number => some dimension
  | _ => none

/-- `filterableDimensionsOnly`: map `assertFilterableDimension`, drop the
`undefined` results. -/
def filterableDimensionsOnly (dimensions : List Dimension) : List Dimension :=
  (dimensions.map assertFilterableDimension).filterMap id

/-- The `lightdashTypeMap` object literal, as an association list in source
order. -/
def lightdashTypeMap : List (String × DimensionType) := [
  ("INTEGER", .number),
  ("INT32", .number),
  ("INT64", .number),
  ("FLOAT", .number),
  ("NUMERIC", .number),
  ("BOOLEAN", .boolean),
  ("STRING", .string),
  ("TIMESTAMP", .timestamp),
  ("DATETIME", .string),
  ("DATE", .date),
  ("TIME", .string),
  ("BOOL", .boolean),
  ("ARRAY", .string),
  ("GEOGRAPHY", .string),
  ("NUMBER", .number),
  ("DECIMAL", .number),
  ("INT", .number),
  ("BIGINT", .number),
  ("SMALLINT", .number),
  ("FLOAT4", .number),
  ("FLOAT8", .number),
  ("DOUBLE", .number),
  ("DOUBLE PRECISION", .number),
  ("REAL", .number),
  ("VARCHAR", .string),
  ("CHAR", .string),
  ("CHARACTER", .string),
  ("TEXT", .string),
  ("BINARY", .string),
  ("VARBINARY", .string),
  ("TIMESTAMP_NTZ", .timestamp),
  ("VARIANT", .string),
  ("OBJECT", .string),
  ("INT2", .number),
  ("INT4", .number),
  ("INT8", .number),
  ("NCHAR", .string),
  ("BPCHAR", .string),
  ("CHARACTER VARYING", .string),
  ("NVARCHAR", .string),
  ("TIMESTAMP WITHOUT TIME ZONE", .timestamp),
  ("GEOMETRY", .string),
  ("TIME WITHOUT TIME ZONE", .string),
  ("XML", .string),
  ("UUID", .string),
  ("PG_LSN", .string),
  ("MACADDR", .string),
  ("JSON", .string),
  ("JSONB", .string),
  ("CIDR", .string),
  ("INET", .string),
  ("MONEY", .number),
  ("SMALLSERIAL", .number),
  ("SERIAL2", .number),
  ("SERIAL", .number),
  ("SERIAL4", .number),
  ("BIGSERIAL", .number),
  ("SERIAL8", .number)]

/-- The property names an object literal inherits from `Object.prototype`
(per ECMA-262): bracket lookup on the literal finds these on the prototype
chain when the key is not an own property, and every one of them yields a
truthy value (a built-in function; `__proto__` yields the prototype object). -/
def objectPrototypeKeys : List String :=
  ["constructor", "hasOwnProperty", "isPrototypeOf", "propertyIsEnumerable",
   "toLocaleString", "toString", "valueOf", "__defineGetter__",
   "__defineSetter__", "__lookupGetter__", "__lookupSetter__", "__proto__"]

/-- The runtime value `lightdashTypeMap[columnType] || 'string'` can take:
a dimension-type tag string (an own value of the literal, or the `'string'`
default), or a truthy non-tag value inherited from `Object.prototype`
(tagged here with the property name that was looked up). -/
inductive JsLookupValue
  | dimTag (t : DimensionType)
  | protoValue (key : String)
deriving DecidableEq

/-- JS bracket lookup on the object literal: an own key (exact,
case-sensitive match) wins; otherwise the key is searched on the prototype
chain, i.e. among `Object.prototype`'s properties; otherwise the lookup is
`undefined`.  None of the literal's own keys collides with a prototype key,
so this order matches JS property resolution. -/
def jsObjectGet (m : List (String × DimensionType)) (key : String) :
    Option JsLookupValue :=
  match m.lookup key with
  | some t => some (.dimTag t)
  | none =>
    if objectPrototypeKeys.contains key then some (.protoValue key)
    else none

/-- `mapColumnTypeToLightdashType`: `lightdashTypeMap[columnType] || 'string'`.
Every own value of the literal is a truthy tag string and every inherited
prototype value is truthy too, so `||` fires exactly when the lookup is
`undefined`; an inherited hit is returned as is, not replaced by `'string'`. -/
def mapColumnTypeToLightdashType (columnType : String) : JsLookupValue :=
  match jsObjectGet lightdashTypeMap columnType with
  | some v => v
  | none => .dimTag .string

/-- `Direction` enum for sorts in the common package. -/
inductive Direction
  | ascending
  | descending
deriving DecidableEq

/-- `FilterGroupOperator` enum. -/
inductive FilterGroupOperator
  | and
  | or
deriving DecidableEq

/-- `StringFilter` union. -/
inductive StringFilter
  | equals (values : List String)
  | notEquals (values : List String)
  | startsWith (value : String)
  | isNull
  | notNull
deriving DecidableEq

/-- `NumberFilter` union (JS numbers on filter values embedded as `Int`). -/
inductive NumberFilter
  | equals (values : List Int)
  | notEquals (values : List Int)
  | greaterThan (value : Int)
  | lessThan (value : Int)
  | isNull
  | notNull
deriving DecidableEq

/-- `StringFilterGroup`. -/
structure StringFilterGroup where
  dimension : Dimension
  operator : FilterGroupOperator
  filters : List StringFilter
deriving DecidableEq

/-- `NumberFilterGroup`. -/
structure NumberFilterGroup where
  dimension : Dimension
  operator : FilterGroupOperator
  filters : List NumberFilter
deriving DecidableEq

/-- `FilterGroup = StringFilterGroup | NumberFilterGroup`. -/
inductive FilterGroup
  | str (g : StringFilterGroup)
  | num (g : NumberFilterGroup)
deriving DecidableEq

/-- `SortField` in the common package: a full field and a direction. -/
structure SortField where
  field : Field
  direction : Direction
deriving DecidableEq

/-- `MetricQuery`: the declarative query object over one explore. -/
structure MetricQuery where
  explore : Explore
  dimensions : List Dimension
  measures : List Measure
  filters : List FilterGroup
  sorts : List SortField
  limit : Int
deriving DecidableEq

end Common

namespace Compiler

open Common

/-- Modelled from the spec: the compile-time error taxonomy of §7.  The
compiler and explore-construction code are not part of the source tree (only
their input types in `packages/common` are). -/
inductive CompileError
  | emptyQueryError
  | invalidSortError (offending : String)
  | invalidLimitError
  | duplicateFieldIdError (table : String) (name : String)
deriving DecidableEq

/-- Modelled from the spec: the duplicate-`fieldId` scan of §4.1 ("scan all
fields once, fail fast on first collision").  Walks the field list once,
carrying the ids already seen, and returns the first field whose id was seen
before. -/
def findDuplicateField (fields : List Field) (seen : List String) :
    Option Field :=
  match fields with
  | [] => none
  | f :: rest =>
    if seen.contains (fieldId f) then some f
    else findDuplicateField rest (fieldId f :: seen)

/-- Modelled from the spec: Explore construction (§4.1), absent from the
source tree.  It must reject an explore containing two fields with the same
computed `fieldId`, reporting the offending table/name pair via
`DuplicateFieldIdError`. -/
def createExplore (e : Explore) : Except CompileError Explore :=
  match findDuplicateField (getFields e) [] with
  | some f => .error (.duplicateFieldIdError f.table f.name)
  | none => .ok e

/-- Modelled from the spec: the validation steps of `compileQuery` (§4.4),
absent from the source tree.  A query with zero dimensions and zero measures
fails with `EmptyQueryError` (step 3); a sort on a field outside the selected
dimensions/measures fails with `InvalidSortError` (step 7); a nonpositive
limit fails with `InvalidLimitError` (step 8); otherwise a SQL text is
produced (its rendering is out of scope here, so the select list stands in
for it). -/
def compileQuery (q : MetricQuery) : Except CompileError String :=
  if q.dimensions.isEmpty && q.measures.isEmpty then
    .error .emptyQueryError
  else
    let selected := q.dimensions.map (fun d => fieldId (.dim d)) ++
      q.measures.map (fun m => fieldId (.mea m))
    match q.sorts.find? (fun sf => !selected.contains (fieldId sf.field)) with
    | some sf => .error (.invalidSortError (fieldId sf.field))
    | none =>
      if q.limit ≤ 0 then .error .invalidLimitError
      else .ok (String.intercalate ", " selected)

end Compiler

namespace Explorer

open Common (FilterGroup)

/-- The `SortField` shape the explorer reducer manipulates: a field id and a
descending flag. -/
structure SortField where
  fieldId : String
  descending : Bool
deriving DecidableEq

/-- `ExplorerReduceState`: the reducer's state record.  `tableName` may be
`undefined`; dimensions and metrics are lists of field ids; `limit` is a row
count. -/
structure ExplorerReduceState where
  tableName : Option String
  dimensions : List String
  metrics : List String
  filters : List FilterGroup
  sorts : List SortField
  columnOrder : List String
  limit : Nat
deriving DecidableEq

/-- The module-level `defaultState` constant. -/
def defaultState : ExplorerReduceState :=
  { tableName := none
    dimensions := []
    metrics := []
    filters := []
    sorts := []
    columnOrder := []
    limit := 500 }

/-- `toggleArrayValue`: remove the first occurrence of `value` when present
(`indexOf` / `splice`), append it otherwise (`push`). -/
def toggleArrayValue (initialArray : List String) (value : String) : List String :=
  if initialArray.contains value then initialArray.erase value
  else initialArray ++ [value]

/-- `calcColumnOrder`: keep the columns that are still active, in their old
order, then append the active field ids not yet present. -/
def calcColumnOrder (columnOrder : List String) (fieldIds : List String) :
    List String :=
  let cleanColumnOrder := columnOrder.filter (fun column => fieldIds.contains column)
  let missingColumns := fieldIds.filter (fun fid => !cleanColumnOrder.contains fid)
  cleanColumnOrder ++ missingColumns

/-- The reducer's `Action` union (payload-carrying variants). -/
inductive Action
  | reset
  | setState (payload : ExplorerReduceState)
  | setTableName (payload : String)
  | toggleDimension (payload : String)
  | toggleMetric (payload : String)
  | toggleSortField (payload : String)
  | setSortFields (payload : List SortField)
  | setRowLimit (payload : Nat)
  | setFilters (payload : List FilterGroup)
  | setColumnOrder (payload : List String)

/-- Whether an action is `SET_STATE`. -/
def Action.isSetState : Action → Bool
  | .setState _ => true
  | _ => false

/-- The explorer `reducer`. -/
def reducer (state : ExplorerReduceState) (action : Action) :
    ExplorerReduceState :=
  match action with
  | .reset => defaultState
  | .setState payload =>
    { payload with
      columnOrder := calcColumnOrder payload.columnOrder
        (payload.dimensions ++ payload.metrics) }
  | .setTableName payload => { state with tableName := some payload }
  | .toggleDimension payload =>
    let dimensions := toggleArrayValue state.dimensions payload
    { state with
      dimensions := dimensions
      sorts := state.sorts.filter (fun s => s.fieldId != payload)
      columnOrder := calcColumnOrder state.columnOrder
        (dimensions ++ state.metrics) }
  | .toggleMetric payload =>
    let metrics := toggleArrayValue state.metrics payload
    { state with
      metrics := metrics
      sorts := state.sorts.filter (fun s => s.fieldId != payload)
      columnOrder := calcColumnOrder state.columnOrder
        (state.dimensions ++ metrics) }
  | .toggleSortField payload =>
    let activeFields := state.dimensions ++ state.metrics
    if !activeFields.contains payload then state
    else
      match state.sorts.find? (fun sf => sf.fieldId == payload) with
      | none =>
        { state with
          sorts := state.sorts ++ [{ fieldId := payload, descending := false }] }
      | some _ =>
        { state with
          sorts := state.sorts.foldl (fun acc sf =>
            if sf.fieldId != payload then acc ++ [sf]
            else if sf.descending then acc
            else acc ++ [{ sf with descending := true }]) [] }
  | .setSortFields payload =>
    let activeFields := state.dimensions ++ state.metrics
    { state with
      sorts := payload.filter (fun sf => activeFields.contains sf.fieldId) }
  | .setRowLimit payload => { state with limit := payload }
  | .setFilters payload => { state with filters := payload }
  | .setColumnOrder payload =>
    { state with
      columnOrder := calcColumnOrder payload
        (state.dimensions ++ state.metrics) }

/-- States reachable from `defaultState` by dispatching actions allowed by
`ok` (instantiated differently per claim). -/
inductive ReachableVia (ok : ExplorerReduceState → Action → Prop) :
    ExplorerReduceState → Prop
  | base : ReachableVia ok defaultState
  | step (s : ExplorerReduceState) (a : Action) (hs : ReachableVia ok s)
      (ha : ok s a) : ReachableVia ok (reducer s a)

/-- `isValidQuery` as computed in `ExplorerProvider`: the `Set` of active
field ids (dimensions and metrics) is nonempty.  `dedup.length` is the size
of that set. -/
def isValidQuery (state : ExplorerReduceState) : Bool :=
  decide (0 < (state.dimensions ++ state.metrics).dedup.length)

/-- The sort invariant maintained by the reducer: every sort entry references
a field id contained in the selected dimensions or metrics. -/
def sortsActive (state : ExplorerReduceState) : Prop :=
  ∀ sf ∈ state.sorts,
    sf.fieldId ∈ state.dimensions ∨ sf.fieldId ∈ state.metrics

/-- The payload sanity assumed by the column-order claim as stated: the
dimensions, metrics and columnOrder lists supplied in `SET_STATE` and
`SET_COLUMN_ORDER` payloads are duplicate-free. -/
def DupFreePayload : ExplorerReduceState → Action → Prop
  | _, .setState p =>
    p.dimensions.Nodup ∧ p.metrics.Nodup ∧ p.columnOrder.Nodup
  | _, .setColumnOrder payload => payload.Nodup
  | _, _ => True

/-- The strengthened payload sanity: duplicate-free payloads and, in
addition, dimensions and metrics kept disjoint — a `SET_STATE` payload may
not list a field id as both, and a field id is only toggled as a dimension
while it is not a metric and vice versa. -/
def DisjointPayload : ExplorerReduceState → Action → Prop
  | _, .setState p =>
    p.dimensions.Nodup ∧ p.metrics.Nodup ∧ p.columnOrder.Nodup ∧
      ∀ x ∈ p.dimensions, x ∉ p.metrics
  | _, .setColumnOrder payload => payload.Nodup
  | s, .toggleDimension payload => payload ∉ s.metrics
  | s, .toggleMetric payload => payload ∉ s.dimensions
  | _, _ => True

/-- The body shape `useQueryResults` posts to the `runQuery` endpoint. -/
structure RunQueryBody where
  dimensions : List String
  metrics : List String
  sorts : List SortField
  filters : List FilterGroup
  limit : Nat
  tableCalculations : List String
deriving DecidableEq

/-- The `metricQuery` object literal built inside `useQueryResults`: fields
are copied from the explorer state and `limit` is `limit || 500` (the only
falsy `Nat` row limit is `0`). -/
def metricQueryOfState (state : ExplorerReduceState) : RunQueryBody :=
  { dimensions := state.dimensions
    metrics := state.metrics
    sorts := state.sorts
    filters := state.filters
    limit := if state.limit != 0 then state.limit else 500
    tableCalculations := [] }

end Explorer

/-! ## Helper lemmas -/

/-- Lookup in an association list finds the value of any pair present, when
the keys are duplicate-free. -/
theorem lookup_eq_some_of_mem {α β : Type} [BEq α] [LawfulBEq α]
    {l : List (α × β)} {s : α} {t : β} (hnd : (l.map Prod.fst).Nodup)
    (hmem : (s, t) ∈ l) : l.lookup s = some t := by
  induction l with
  | nil => cases hmem
  | cons p rest ih =>
    obtain ⟨a, b⟩ := p
    simp only [List.map_cons, List.nodup_cons] at hnd
    rcases List.mem_cons.mp hmem with heq | hrest
    · obtain ⟨rfl, rfl⟩ := Prod.mk.injEq .. ▸ heq
      simp [List.lookup]
    · have hne : s ≠ a := by
        rintro rfl
        exact hnd.1 (List.mem_map_of_mem Prod.fst hrest)
      simp only [List.lookup, beq_eq_false_iff_ne.mpr hne]
      exact ih hnd.2 hrest

/-- Lookup in an association list misses any key not among the keys. -/
theorem lookup_eq_none_of_not_mem {α β : Type} [BEq α] [LawfulBEq α]
    {l : List (α × β)} {s : α} (h : s ∉ l.map Prod.fst) :
    l.lookup s = none := by
  induction l with
  | nil => rfl
  | cons p rest ih =>
    obtain ⟨a, b⟩ := p
    simp only [List.map_cons, List.mem_cons, not_or] at h
    simp only [List.lookup, beq_eq_false_iff_ne.mpr h.1]
    exact ih h.2

/-! ## C8 -/

/-- C8: `fieldId(field)` equals `"{table}_{name}"` and depends on nothing but
the field's table and name: two fields agreeing on table and name receive the
same id regardless of their type, sql or description. -/
theorem fieldId_function_of_table_name :
    (∀ f : Common.Field, Common.fieldId f = f.table ++ "_" ++ f.name) ∧
    (∀ f g : Common.Field, f.table = g.table → f.name = g.name →
      Common.fieldId f = Common.fieldId g) := by
  refine ⟨fun f => rfl, fun f g ht hn => ?_⟩
  simp [Common.fieldId, ht, hn]

/-- Witness for C8: a string dimension and a count measure sharing table
`orders` and name `status` but different sql and description get one id. -/
theorem fieldId_function_of_table_name_witness :
    Common.fieldId (Common.Field.dim
      ⟨Common.DimensionType.string, "status", "orders", "TABLE.status", none⟩) =
    Common.fieldId (Common.Field.mea
      ⟨Common.MeasureType.count, "status", "orders", "TABLE.id", some "n"⟩) :=
  fieldId_function_of_table_name.2 _ _ rfl rfl

/-! ## C4 -/

/-- C4: `filterableDimensionsOnly` is exactly the order-preserving filter of
its input to the string/number dimensions — it never returns a timestamp,
date or boolean dimension — and `assertFilterableDimension` is total,
returning the dimension itself on string/number and `none` otherwise. -/
theorem filterableDimensionsOnly_spec :
    (∀ ds : List Common.Dimension, Common.filterableDimensionsOnly ds =
      ds.filter (fun d => d.type == Common.DimensionType.string ||
        d.type == Common.DimensionType.number)) ∧
    (∀ ds : List Common.Dimension,
      (Common.filterableDimensionsOnly ds).Sublist ds) ∧
    (∀ (ds : List Common.Dimension) (d : Common.Dimension),
      d ∈ Common.filterableDimensionsOnly ds →
      d.type ≠ Common.DimensionType.timestamp ∧
      d.type ≠ Common.DimensionType.date ∧
      d.type ≠ Common.DimensionType.boolean) ∧
    (∀ d : Common.Dimension,
      ((d.type = Common.DimensionType.string ∨
        d.type = Common.DimensionType.number) →
        Common.assertFilterableDimension d = some d) ∧
      (d.type ≠ Common.DimensionType.string →
        d.type ≠ Common.DimensionType.number →
        Common.assertFilterableDimension d = none)) := by
  have key : ∀ ds : List Common.Dimension, Common.filterableDimensionsOnly ds =
      ds.filter (fun d => d.type == Common.DimensionType.string ||
        d.type == Common.DimensionType.number) := by
    intro ds
    simp only [Common.filterableDimensionsOnly]
    induction ds with
    | nil => rfl
    | cons d rest ih =>
      simp only [List.map_cons, List.filterMap_cons, List.filter_cons]
      cases hd : d.type <;>
        simp [Common.assertFilterableDimension, hd, ih]
  refine ⟨key, fun ds => ?_, fun ds d hmem => ?_, fun d => ⟨?_, ?_⟩⟩
  · rw [key]; exact List.filter_sublist ds
  · rw [key] at hmem
    have := List.of_mem_filter hmem
    cases hd : d.type <;> simp [hd] at this ⊢
  · rintro (h | h) <;> simp [Common.assertFilterableDimension, h]
  · intro h1 h2
    cases hd : d.type <;>
      simp_all [Common.assertFilterableDimension]

/-- Witness for C4: on a concrete mixed list the timestamp and boolean
dimensions are absent and the rest survive in order. -/
theorem filterableDimensionsOnly_spec_witness :
    Common.filterableDimensionsOnly
      [⟨Common.DimensionType.timestamp, "t", "a", "s", none⟩,
       ⟨Common.DimensionType.string, "u", "a", "s", none⟩,
       ⟨Common.DimensionType.boolean, "v", "a", "s", none⟩,
       ⟨Common.DimensionType.number, "w", "a", "s", none⟩] =
      [⟨Common.DimensionType.string, "u", "a", "s", none⟩,
       ⟨Common.DimensionType.number, "w", "a", "s", none⟩] ∧
    Common.assertFilterableDimension
      ⟨Common.DimensionType.date, "d", "a", "s", none⟩ = none := by
  constructor
  · rw [filterableDimensionsOnly_spec.1]; rfl
  · exact (filterableDimensionsOnly_spec.2.2.2 _).2 (by decide) (by decide)

/-! ## C6 -/

/-- C6: `isDimension` returns `true` on the five dimension tags, `false` on
the six measure tags, agrees with the raw-tag switch on every field, and the
raw-tag switch throws on any tag outside the closed set of eleven. -/
theorem isDimension_classification :
    (∀ f : Common.Field, Common.isDimension f = true ↔
      f.typeTag ∈ ["string", "number", "timestamp", "date", "boolean"]) ∧
    (∀ f : Common.Field, Common.isDimension f = false ↔
      f.typeTag ∈ ["average", "sum", "min", "max", "count", "count_distinct"]) ∧
    (∀ f : Common.Field,
      Common.isDimensionTag f.typeTag = .ok (Common.isDimension f)) ∧
    (∀ tag : String,
      tag ∉ ["string", "number", "timestamp", "date", "boolean", "average",
        "sum", "min", "max", "count", "count_distinct"] →
      Common.isDimensionTag tag =
        .error ("Is dimension not implemented for type " ++ tag)) := by
  refine ⟨fun f => ?_, fun f => ?_, fun f => ?_, fun tag h => ?_⟩
  · rcases f with ⟨dt, _, _, _, _⟩ | ⟨mt, _, _, _, _⟩
    · cases dt <;> simp [Common.isDimension, Common.Field.typeTag,
        Common.dimensionTypeTag]
    · cases mt <;> simp [Common.isDimension, Common.Field.typeTag,
        Common.measureTypeTag]
  · rcases f with ⟨dt, _, _, _, _⟩ | ⟨mt, _, _, _, _⟩
    · cases dt <;> simp [Common.isDimension, Common.Field.typeTag,
        Common.dimensionTypeTag]
    · cases mt <;> simp [Common.isDimension, Common.Field.typeTag,
        Common.measureTypeTag]
  · rcases f with ⟨dt, _, _, _, _⟩ | ⟨mt, _, _, _, _⟩
    · cases dt <;> simp [Common.isDimension, Common.Field.typeTag,
        Common.dimensionTypeTag, Common.isDimensionTag]
    · cases mt <;> simp [Common.isDimension, Common.Field.typeTag,
        Common.measureTypeTag, Common.isDimensionTag]
  · simp only [List.mem_cons, List.mem_singleton, not_or] at h
    obtain ⟨h1, h2, h3, h4, h5, h6, h7, h8, h9, h10, h11⟩ := h
    simp [Common.isDimensionTag, h1, h2, h3, h4, h5, h6, h7, h8, h9, h10, h11]

/-- Witness for C6: the unknown tag `json` hits the throwing default branch. -/
theorem isDimension_classification_witness :
    Common.isDimensionTag "json" =
      .error ("Is dimension not implemented for type " ++ "json") :=
  isDimension_classification.2.2.2 "json" (by decide)

/-! ## C2 -/

/-- C2 counterexample: the lookup is case-sensitive, not case-insensitive as
claimed: `integer` differs from the known name `INTEGER` only by case, yet it
falls through to the `string` default while `INTEGER` maps to `number`; and
the function is not total into the dimension tags either: `toString` hits the
inherited truthy `Object.prototype.toString`, which is returned as is, not
replaced by `string`. -/
theorem mapColumnType_case_sensitive_counterexample :
    Common.mapColumnTypeToLightdashType "integer" =
      .dimTag Common.DimensionType.string ∧
    Common.mapColumnTypeToLightdashType "INTEGER" =
      .dimTag Common.DimensionType.number ∧
    "integer".data.map Char.toUpper = "INTEGER".data ∧
    Common.mapColumnTypeToLightdashType "toString" =
      .protoValue "toString" := by
  refine ⟨?_, ?_, ?_, ?_⟩ <;> decide

/-- C2 amended: `mapColumnTypeToLightdashType` looks the name up by exact
(case-sensitive) match among the fixed native-type table's own keys, which
are duplicate-free; a present key returns its mapped tag; any other input
returns `string`, except the property names inherited from
`Object.prototype`, for which the bracket lookup finds the inherited truthy
value and returns it instead of a tag. -/
theorem mapColumnType_total_spec :
    ((Common.lightdashTypeMap.map Prod.fst).Nodup) ∧
    (∀ (s : String) (t : Common.DimensionType),
      (s, t) ∈ Common.lightdashTypeMap →
      Common.mapColumnTypeToLightdashType s = .dimTag t) ∧
    (∀ s : String, s ∉ Common.lightdashTypeMap.map Prod.fst →
      s ∈ Common.objectPrototypeKeys →
      Common.mapColumnTypeToLightdashType s = .protoValue s) ∧
    (∀ s : String, s ∉ Common.lightdashTypeMap.map Prod.fst →
      s ∉ Common.objectPrototypeKeys →
      Common.mapColumnTypeToLightdashType s =
        .dimTag Common.DimensionType.string) := by
  have hnd : (Common.lightdashTypeMap.map Prod.fst).Nodup := by decide
  refine ⟨hnd, fun s t hmem => ?_, fun s h hp => ?_, fun s h hp => ?_⟩
  · simp [Common.mapColumnTypeToLightdashType, Common.jsObjectGet,
      lookup_eq_some_of_mem hnd hmem]
  · simp only [Common.mapColumnTypeToLightdashType, Common.jsObjectGet,
      lookup_eq_none_of_not_mem h]
    rw [if_pos (by simpa using hp)]
  · simp only [Common.mapColumnTypeToLightdashType, Common.jsObjectGet,
      lookup_eq_none_of_not_mem h]
    rw [if_neg (by simpa using hp)]

/-- Witness for C2: the known key `TIMESTAMP_NTZ` maps to `timestamp`, the
unknown string `TIMESTAMPTZ` defaults to `string`, and the inherited key
`valueOf` is returned as the inherited prototype value. -/
theorem mapColumnType_total_spec_witness :
    Common.mapColumnTypeToLightdashType "TIMESTAMP_NTZ" =
      .dimTag Common.DimensionType.timestamp ∧
    Common.mapColumnTypeToLightdashType "TIMESTAMPTZ" =
      .dimTag Common.DimensionType.string ∧
    Common.mapColumnTypeToLightdashType "valueOf" = .protoValue "valueOf" :=
  ⟨mapColumnType_total_spec.2.1 _ _ (by decide),
   mapColumnType_total_spec.2.2.2 _ (by decide) (by decide),
   mapColumnType_total_spec.2.2.1 _ (by decide) (by decide)⟩

/-! ## C10 -/

/-- C10: the `MetricQuery` body posted by `useQueryResults` carries the
state's limit whenever it is nonzero and `500` when it is zero, so a zero row
limit is never sent; the default state's limit is `500`. -/
theorem runQuery_limit_spec :
    (∀ s : Explorer.ExplorerReduceState, s.limit ≠ 0 →
      (Explorer.metricQueryOfState s).limit = s.limit) ∧
    (∀ s : Explorer.ExplorerReduceState, s.limit = 0 →
      (Explorer.metricQueryOfState s).limit = 500) ∧
    (∀ s : Explorer.ExplorerReduceState,
      (Explorer.metricQueryOfState s).limit ≠ 0) ∧
    Explorer.defaultState.limit = 500 := by
  refine ⟨fun s h => ?_, fun s h => ?_, fun s => ?_, rfl⟩
  · simp [Explorer.metricQueryOfState, h]
  · simp [Explorer.metricQueryOfState, h]
  · by_cases h : s.limit = 0 <;> simp [Explorer.metricQueryOfState, h]

/-- Witness for C10: a state with row limit 25 submits 25; a state with row
limit 0 submits 500. -/
theorem runQuery_limit_spec_witness :
    (Explorer.metricQueryOfState
      { Explorer.defaultState with limit := 25 }).limit = 25 ∧
    (Explorer.metricQueryOfState
      { Explorer.defaultState with limit := 0 }).limit = 500 :=
  ⟨runQuery_limit_spec.1 _ (by decide), runQuery_limit_spec.2.1 _ rfl⟩

/-! ## C5 -/

/-- C5: compiling a `MetricQuery` with no dimensions and no measures fails
with `EmptyQueryError`, and the state layer's `isValidQuery` is `true`
exactly when at least one dimension or metric is selected. -/
theorem emptyQuery_isValidQuery_spec :
    (∀ q : Common.MetricQuery, q.dimensions = [] → q.measures = [] →
      Compiler.compileQuery q = .error Compiler.CompileError.emptyQueryError) ∧
    (∀ s : Explorer.ExplorerReduceState,
      Explorer.isValidQuery s = true ↔
        (s.dimensions ≠ [] ∨ s.metrics ≠ [])) := by
  constructor
  · intro q h1 h2
    simp [Compiler.compileQuery, h1, h2]
  · intro s
    simp only [Explorer.isValidQuery, decide_eq_true_eq, List.length_pos,
      ne_eq, List.dedup_eq_nil, List.append_eq_nil, not_and_or]

/-- Witness for C5: a query with empty dimensions and measures over a
concrete explore compiles to `EmptyQueryError`. -/
theorem emptyQuery_isValidQuery_spec_witness :
    Compiler.compileQuery
      { explore := ⟨"e", "t", [], []⟩,
        dimensions := [], measures := [], filters := [], sorts := [],
        limit := 10 } =
      .error Compiler.CompileError.emptyQueryError :=
  emptyQuery_isValidQuery_spec.1 _ rfl rfl

/-! ## C7 -/

/-- Occurrence counting distributes over `flatMap`. -/
theorem count_flatMap {α β : Type} [DecidableEq β] (l : List α)
    (g : α → List β) (b : β) :
    (l.flatMap g).count b = (l.map (fun x => (g x).count b)).sum := by
  induction l with
  | nil => rfl
  | cons x xs ih => simp [List.count_append, ih]

/-- Occurrence counting distributes over a mapped `flatMap`. -/
theorem count_map_flatMap {α β γ : Type} [DecidableEq γ] (l : List α)
    (g : α → List β) (h : β → γ) (c : γ) :
    ((l.flatMap g).map h).count c =
      (l.map (fun x => ((g x).map h).count c)).sum := by
  induction l with
  | nil => rfl
  | cons x xs ih => simp [List.map_append, List.count_append, ih]

/-- Summing a pointwise sum splits into two sums. -/
theorem sum_map_add {α : Type} (l : List α) (f g : α → Nat) :
    (l.map (fun x => f x + g x)).sum = (l.map f).sum + (l.map g).sum := by
  induction l with
  | nil => rfl
  | cons x xs ih =>
    simp only [List.map_cons, List.sum_cons, ih]
    omega

/-- C7: `getDimensions` returns each dimension as often as it occurs across
the tables' dimension mappings, `getMeasures` likewise for measures, and
`getFields` contains each field exactly as often as it occurs in some table's
dimensions or measures mapping. -/
theorem getFields_multiset_spec :
    (∀ (e : Common.Explore) (d : Common.Dimension),
      (Common.getDimensions e).count d =
        (e.tables.map (fun p => (p.2.dimensions.map Prod.snd).count d)).sum) ∧
    (∀ (e : Common.Explore) (m : Common.Measure),
      (Common.getMeasures e).count m =
        (e.tables.map (fun p => (p.2.measures.map Prod.snd).count m)).sum) ∧
    (∀ (e : Common.Explore) (f : Common.Field),
      (Common.getFields e).count f =
        (e.tables.map (fun p =>
          ((p.2.dimensions.map Prod.snd).map Common.Field.dim).count f +
          ((p.2.measures.map Prod.snd).map Common.Field.mea).count f)).sum) := by
  refine ⟨fun e d => ?_, fun e m => ?_, fun e f => ?_⟩
  · rw [Common.getDimensions, count_flatMap]
    simp only [List.map_map]
    rfl
  · rw [Common.getMeasures, count_flatMap]
    simp only [List.map_map]
    rfl
  · rw [Common.getFields, List.count_append, Common.getDimensions,
      Common.getMeasures, count_map_flatMap, count_map_flatMap,
      sum_map_add]
    simp only [List.map_map]
    rfl

/-! ## C1 -/

/-- Splitting a character list at a separator absent from both prefixes is
unambiguous. -/
theorem append_sep_inj : ∀ (t1 t2 n1 n2 : List Char), '_' ∉ t1 → '_' ∉ t2 →
    t1 ++ '_' :: n1 = t2 ++ '_' :: n2 → t1 = t2 ∧ n1 = n2 := by
  intro t1
  induction t1 with
  | nil =>
    intro t2 n1 n2 _ h2 heq
    cases t2 with
    | nil => simpa using heq
    | cons c t2' =>
      simp only [List.nil_append, List.cons_append, List.cons.injEq] at heq
      exact absurd (heq.1 ▸ List.mem_cons_self c t2') h2
  | cons c t1' ih =>
    intro t2 n1 n2 h1 h2 heq
    cases t2 with
    | nil =>
      simp only [List.cons_append, List.nil_append, List.cons.injEq] at heq
      exact absurd (heq.1 ▸ List.mem_cons_self c t1') h1
    | cons d t2' =>
      simp only [List.cons_append, List.cons.injEq] at heq
      obtain ⟨rfl, htail⟩ := heq
      have h1' : '_' ∉ t1' := fun hm => h1 (List.mem_cons_of_mem c hm)
      have h2' : '_' ∉ t2' := fun hm => h2 (List.mem_cons_of_mem c hm)
      obtain ⟨rfl, rfl⟩ := ih t2' n1 n2 h1' h2' htail
      exact ⟨rfl, rfl⟩

/-- The characters of a field id: table, underscore, name. -/
theorem fieldId_data (f : Common.Field) :
    (Common.fieldId f).data = f.table.data ++ '_' :: f.name.data := by
  simp [Common.fieldId, String.data_append]

/-- The duplicate scan returns `none` exactly when the field ids are
pairwise distinct and all fresh with respect to the ids already seen. -/
theorem findDuplicateField_eq_none_iff :
    ∀ (fields : List Common.Field) (seen : List String),
      Compiler.findDuplicateField fields seen = none ↔
        ((fields.map Common.fieldId).Nodup ∧
          ∀ x ∈ fields.map Common.fieldId, x ∉ seen) := by
  intro fields
  induction fields with
  | nil => intro seen; simp [Compiler.findDuplicateField]
  | cons f rest ih =>
    intro seen
    simp only [Compiler.findDuplicateField]
    by_cases h : seen.contains (Common.fieldId f)
    · rw [if_pos h]
      have hmem : Common.fieldId f ∈ seen := by
        simpa [List.contains] using h
      simp only [List.map_cons, List.nodup_cons, List.mem_cons]
      constructor
      · intro hcontra; cases hcontra
      · rintro ⟨-, hall⟩
        exact absurd (hall _ (Or.inl rfl)) (fun hn => hn hmem)
    · rw [if_neg h]
      have hnot : Common.fieldId f ∉ seen := by
        simpa [List.contains] using h
      rw [ih (Common.fieldId f :: seen)]
      simp only [List.map_cons, List.nodup_cons, List.mem_cons, not_or]
      constructor
      · rintro ⟨hnd, hall⟩
        refine ⟨⟨fun hmem => (hall _ hmem).1 rfl, hnd⟩, ?_⟩
        rintro x (rfl | hx)
        · exact hnot
        · exact (hall x hx).2
      · rintro ⟨⟨hfresh, hnd⟩, hall⟩
        refine ⟨hnd, fun x hx => ⟨?_, ?_⟩⟩
        · rintro rfl; exact hfresh hx
        · exact hall x (Or.inr hx)

/-- C1 counterexample: two fields with distinct (table, name) pairs share a
field id, because field ids are built with an unescaped underscore: tables
`a_b` / `a` with names `c` / `b_c` both yield `a_b_c`. -/
theorem fieldId_not_injective_counterexample :
    ((Common.Field.dim
        ⟨Common.DimensionType.string, "c", "a_b", "s", none⟩).table,
     (Common.Field.dim
        ⟨Common.DimensionType.string, "c", "a_b", "s", none⟩).name) ≠
    ((Common.Field.dim
        ⟨Common.DimensionType.string, "b_c", "a", "s", none⟩).table,
     (Common.Field.dim
        ⟨Common.DimensionType.string, "b_c", "a", "s", none⟩).name) ∧
    Common.fieldId
        (Common.Field.dim ⟨Common.DimensionType.string, "c", "a_b", "s", none⟩) =
      Common.fieldId
        (Common.Field.dim ⟨Common.DimensionType.string, "b_c", "a", "s", none⟩) := by
  constructor
  · decide
  · rfl

/-- C1 amended: `fieldId` is injective on (table, name) pairs whose table
name contains no underscore, and the (spec-modelled) Explore construction
fails with `DuplicateFieldIdError` exactly when two of the explore's fields
share a computed field id. -/
theorem fieldId_injective_spec :
    (∀ f g : Common.Field, '_' ∉ f.table.data → '_' ∉ g.table.data →
      Common.fieldId f = Common.fieldId g →
      f.table = g.table ∧ f.name = g.name) ∧
    (∀ e : Common.Explore,
      (∃ t n, Compiler.createExplore e =
        .error (Compiler.CompileError.duplicateFieldIdError t n)) ↔
      ¬ ((Common.getFields e).map Common.fieldId).Nodup) := by
  constructor
  · intro f g hf hg heq
    have hdata := congrArg String.data heq
    rw [fieldId_data, fieldId_data] at hdata
    obtain ⟨ht, hn⟩ := append_sep_inj _ _ _ _ hf hg hdata
    exact ⟨String.ext ht, String.ext hn⟩
  · intro e
    cases hfd : Compiler.findDuplicateField (Common.getFields e) [] with
    | none =>
      have := (findDuplicateField_eq_none_iff (Common.getFields e) []).mp hfd
      simp [Compiler.createExplore, hfd, this.1]
    | some f =>
      have hnone : Compiler.findDuplicateField (Common.getFields e) [] ≠ none := by
        simp [hfd]
      have hnd : ¬ ((Common.getFields e).map Common.fieldId).Nodup := by
        intro hcontra
        exact hnone ((findDuplicateField_eq_none_iff _ []).mpr
          ⟨hcontra, by simp⟩)
      simp only [Compiler.createExplore, hfd]
      exact iff_of_true ⟨f.table, f.name, rfl⟩ hnd

/-- Witness for C1: two underscore-free-table fields with equal ids (`a_b`
from table `a`, name `b`) are forced to agree on table and name. -/
theorem fieldId_injective_spec_witness :
    (Common.Field.dim ⟨Common.DimensionType.string, "b", "a", "s", none⟩).table =
      (Common.Field.mea ⟨Common.MeasureType.count, "b", "a", "q", some "z"⟩).table ∧
    (Common.Field.dim ⟨Common.DimensionType.string, "b", "a", "s", none⟩).name =
      (Common.Field.mea ⟨Common.MeasureType.count, "b", "a", "q", some "z"⟩).name :=
  fieldId_injective_spec.1 _ _ (by decide) (by decide) rfl

/-! ## C3 -/

/-- Every element produced by the `TOGGLE_SORT_FIELD` fold either comes from
the accumulator or shares its field id with an input sort entry. -/
theorem mem_toggleSort_foldl :
    ∀ (sorts acc : List Explorer.SortField) (fid : String)
      (x : Explorer.SortField),
      x ∈ sorts.foldl (fun acc sf =>
        if sf.fieldId != fid then acc ++ [sf]
        else if sf.descending then acc
        else acc ++ [{ sf with descending := true }]) acc →
      x ∈ acc ∨ ∃ sf ∈ sorts, x.fieldId = sf.fieldId := by
  intro sorts
  induction sorts with
  | nil =>
    intro acc fid x h
    exact Or.inl h
  | cons sf rest ih =>
    intro acc fid x h
    rw [List.foldl_cons] at h
    rcases ih _ fid x h with hacc | ⟨sf', hsf', heq⟩
    · by_cases h1 : (sf.fieldId != fid) = true
      · rw [if_pos h1] at hacc
        rcases List.mem_append.mp hacc with h2 | h2
        · exact Or.inl h2
        · right
          refine ⟨sf, List.mem_cons_self sf rest, ?_⟩
          rw [List.mem_singleton.mp h2]
      · rw [if_neg h1] at hacc
        by_cases h2 : sf.descending = true
        · rw [if_pos h2] at hacc
          exact Or.inl hacc
        · rw [if_neg h2] at hacc
          rcases List.mem_append.mp hacc with h3 | h3
          · exact Or.inl h3
          · right
            refine ⟨sf, List.mem_cons_self sf rest, ?_⟩
            rw [List.mem_singleton.mp h3]
    · right
      exact ⟨sf', List.mem_cons_of_mem sf hsf', heq⟩

/-- C3: every state reachable from the default state without `SET_STATE`
keeps all sort entries on active fields; toggling a dimension or metric `f`
leaves no sort entry on `f`; `SET_SORT_FIELDS` keeps exactly the payload
sorts whose field is active. -/
theorem reducer_sorts_active_invariant :
    (∀ s, Explorer.ReachableVia (fun _ a => a.isSetState = false) s →
      Explorer.sortsActive s) ∧
    (∀ (s : Explorer.ExplorerReduceState) (fid : String),
      ∀ sf ∈ (Explorer.reducer s (.toggleDimension fid)).sorts,
        sf.fieldId ≠ fid) ∧
    (∀ (s : Explorer.ExplorerReduceState) (fid : String),
      ∀ sf ∈ (Explorer.reducer s (.toggleMetric fid)).sorts,
        sf.fieldId ≠ fid) ∧
    (∀ (s : Explorer.ExplorerReduceState)
      (payload : List Explorer.SortField),
      (Explorer.reducer s (.setSortFields payload)).sorts =
        payload.filter (fun sf =>
          (s.dimensions ++ s.metrics).contains sf.fieldId)) := by
  refine ⟨?_, ?_, ?_, ?_⟩
  · intro s h
    induction h with
    | base => intro sf hsf; cases hsf
    | step s a hs ha ih =>
      cases a with
      | reset => intro sf hsf; cases hsf
      | setState p => simp [Explorer.Action.isSetState] at ha
      | setTableName n => exact ih
      | toggleDimension fid =>
        intro sf hsf
        have hsf' : sf ∈ s.sorts.filter (fun t => t.fieldId != fid) := hsf
        have hmem : sf ∈ s.sorts := List.mem_of_mem_filter hsf'
        have hne : sf.fieldId ≠ fid := by
          simpa using List.of_mem_filter hsf'
        rcases ih sf hmem with hd | hm
        · left
          show sf.fieldId ∈ Explorer.toggleArrayValue s.dimensions fid
          unfold Explorer.toggleArrayValue
          by_cases hc : s.dimensions.contains fid
          · rw [if_pos hc]
            exact (List.mem_erase_of_ne hne).mpr hd
          · rw [if_neg hc]
            exact List.mem_append_left _ hd
        · right; exact hm
      | toggleMetric fid =>
        intro sf hsf
        have hsf' : sf ∈ s.sorts.filter (fun t => t.fieldId != fid) := hsf
        have hmem : sf ∈ s.sorts := List.mem_of_mem_filter hsf'
        have hne : sf.fieldId ≠ fid := by
          simpa using List.of_mem_filter hsf'
        rcases ih sf hmem with hd | hm
        · left; exact hd
        · right
          show sf.fieldId ∈ Explorer.toggleArrayValue s.metrics fid
          unfold Explorer.toggleArrayValue
          by_cases hc : s.metrics.contains fid
          · rw [if_pos hc]
            exact (List.mem_erase_of_ne hne).mpr hm
          · rw [if_neg hc]
            exact List.mem_append_left _ hm
      | toggleSortField fid =>
        by_cases hc : (s.dimensions ++ s.metrics).contains fid = true
        · cases hfind : s.sorts.find? (fun t => t.fieldId == fid) with
          | none =>
            have hred : Explorer.reducer s (.toggleSortField fid) =
                { s with sorts := s.sorts ++ [⟨fid, false⟩] } := by
              simp only [Explorer.reducer]
              rw [hc, hfind]
              rfl
            rw [hred]
            intro sf hsf
            have hsf' : sf ∈ s.sorts ++ [(⟨fid, false⟩ : Explorer.SortField)] :=
              hsf
            rcases List.mem_append.mp hsf' with h1 | h1
            · exact ih sf h1
            · have hfid : sf.fieldId = fid := by
                rw [List.mem_singleton.mp h1]
              have hact : fid ∈ s.dimensions ++ s.metrics := by
                simpa using hc
              rw [hfid]
              exact (List.mem_append.mp hact).imp id id
          | some t =>
            have hred : Explorer.reducer s (.toggleSortField fid) =
                { s with sorts := s.sorts.foldl (fun acc sf =>
                    if sf.fieldId != fid then acc ++ [sf]
                    else if sf.descending then acc
                    else acc ++ [{ sf with descending := true }]) [] } := by
              simp only [Explorer.reducer]
              rw [hc, hfind]
              rfl
            rw [hred]
            intro sf hsf
            have hsf' : sf ∈ s.sorts.foldl (fun acc sf =>
                if sf.fieldId != fid then acc ++ [sf]
                else if sf.descending then acc
                else acc ++ [{ sf with descending := true }]) [] := hsf
            rcases mem_toggleSort_foldl s.sorts [] fid sf hsf' with h0 | h0
            · cases h0
            · obtain ⟨sf', hmem, heq⟩ := h0
              show sf.fieldId ∈ s.dimensions ∨ sf.fieldId ∈ s.metrics
              rw [heq]
              exact ih sf' hmem
        · have hc' : (s.dimensions ++ s.metrics).contains fid = false :=
            Bool.not_eq_true _ ▸ eq_false_of_ne_true hc
          have hred : Explorer.reducer s (.toggleSortField fid) = s := by
            simp only [Explorer.reducer]
            rw [hc']
            rfl
          rw [hred]
          exact ih
      | setSortFields payload =>
        intro sf hsf
        have hsf' : sf ∈ payload.filter (fun t =>
            (s.dimensions ++ s.metrics).contains t.fieldId) := hsf
        have hact : sf.fieldId ∈ s.dimensions ++ s.metrics := by
          simpa using List.of_mem_filter hsf'
        exact (List.mem_append.mp hact).imp id id
      | setRowLimit n => exact ih
      | setFilters fl => exact ih
      | setColumnOrder co => exact ih
  · intro s fid sf hsf
    have hsf' : sf ∈ s.sorts.filter (fun t => t.fieldId != fid) := hsf
    simpa using List.of_mem_filter hsf'
  · intro s fid sf hsf
    have hsf' : sf ∈ s.sorts.filter (fun t => t.fieldId != fid) := hsf
    simpa using List.of_mem_filter hsf'
  · intro s payload
    rfl

/-- Witness for C3: after toggling dimension `a` and then sorting by `a`,
the reachable state's single sort entry is on an active field. -/
theorem reducer_sorts_active_invariant_witness :
    ("a" : String) ∈ (Explorer.reducer
      (Explorer.reducer Explorer.defaultState (.toggleDimension "a"))
      (.toggleSortField "a")).dimensions ∨
    ("a" : String) ∈ (Explorer.reducer
      (Explorer.reducer Explorer.defaultState (.toggleDimension "a"))
      (.toggleSortField "a")).metrics := by
  have h := reducer_sorts_active_invariant.1 _
    (Explorer.ReachableVia.step _ (.toggleSortField "a")
      (Explorer.ReachableVia.step _ (.toggleDimension "a")
        Explorer.ReachableVia.base rfl) rfl)
  exact h ⟨"a", false⟩ (by decide)

/-! ## C9 -/

/-- Toggling preserves duplicate-freedom. -/
theorem toggleArrayValue_nodup {arr : List String} {v : String}
    (h : arr.Nodup) : (Explorer.toggleArrayValue arr v).Nodup := by
  simp only [Explorer.toggleArrayValue]
  by_cases hc : arr.contains v = true
  · rw [if_pos hc]
    exact h.erase v
  · rw [if_neg hc]
    refine List.Nodup.append h (List.nodup_singleton v) ?_
    intro x hx1 hx2
    rw [List.mem_singleton.mp hx2] at hx1
    exact (by simpa using hc : v ∉ arr) hx1

/-- Membership after a toggle on a duplicate-free list: surviving old
elements, or the value when it was freshly added. -/
theorem toggleArrayValue_mem_iff {arr : List String} {v x : String}
    (h : arr.Nodup) :
    x ∈ Explorer.toggleArrayValue arr v ↔
      ((x ∈ arr ∧ x ≠ v) ∨ (x = v ∧ v ∉ arr)) := by
  simp only [Explorer.toggleArrayValue]
  by_cases hc : arr.contains v = true
  · rw [if_pos hc]
    have hv : v ∈ arr := by simpa using hc
    rw [h.mem_erase_iff]
    constructor
    · rintro ⟨hne, hmem⟩
      exact Or.inl ⟨hmem, hne⟩
    · rintro (⟨hmem, hne⟩ | ⟨rfl, hnv⟩)
      · exact ⟨hne, hmem⟩
      · exact absurd hv hnv
  · rw [if_neg hc]
    have hv : v ∉ arr := by simpa using hc
    simp only [List.mem_append, List.mem_singleton]
    constructor
    · rintro (hmem | rfl)
      · exact Or.inl ⟨hmem, fun heq => hv (heq ▸ hmem)⟩
      · exact Or.inr ⟨rfl, hv⟩
    · rintro (⟨hmem, _⟩ | ⟨rfl, _⟩)
      · exact Or.inl hmem
      · exact Or.inr rfl

/-- A negated `contains` gives non-membership. -/
theorem not_mem_of_bnot_contains {α : Type} [BEq α] [LawfulBEq α]
    {l : List α} {x : α} (h : (!l.contains x) = true) : x ∉ l := by
  simpa using h

/-- Non-membership gives a negated `contains`. -/
theorem bnot_contains_of_not_mem {α : Type} [BEq α] [LawfulBEq α]
    {l : List α} {x : α} (h : x ∉ l) : (!l.contains x) = true := by
  simp [h]

/-- On duplicate-free inputs, `calcColumnOrder` is duplicate-free and holds
exactly the supplied field ids. -/
theorem calcColumnOrder_mem_nodup {co fids : List String}
    (hco : co.Nodup) (hf : fids.Nodup) :
    (Explorer.calcColumnOrder co fids).Nodup ∧
    ∀ x, x ∈ Explorer.calcColumnOrder co fids ↔ x ∈ fids := by
  simp only [Explorer.calcColumnOrder]
  constructor
  · refine List.Nodup.append (hco.filter _) (hf.filter _) ?_
    intro x hx1 hx2
    have hb : (!(co.filter (fun column => fids.contains column)).contains x)
        = true := (List.mem_filter.mp hx2).2
    exact not_mem_of_bnot_contains hb hx1
  · intro x
    simp only [List.mem_append, List.mem_filter]
    constructor
    · rintro (⟨_, hxf⟩ | ⟨hxf, _⟩)
      · simpa using hxf
      · exact hxf
    · intro hxf
      by_cases hxco : x ∈ co
      · exact Or.inl ⟨hxco, by simpa using hxf⟩
      · refine Or.inr ⟨hxf, ?_⟩
        exact bnot_contains_of_not_mem
          (fun hmem => hxco (List.mem_of_mem_filter hmem))

/-- `calcColumnOrder` keeps the retained columns in their previous relative
order and appends only fresh columns after them. -/
theorem calcColumnOrder_order (co fids : List String) :
    ((Explorer.calcColumnOrder co fids).filter
      (fun x => co.contains x)).Sublist co ∧
    Explorer.calcColumnOrder co fids =
      (Explorer.calcColumnOrder co fids).filter (fun x => co.contains x) ++
        (Explorer.calcColumnOrder co fids).filter
          (fun x => !co.contains x) := by
  have hclean : (Explorer.calcColumnOrder co fids).filter
      (fun x => co.contains x) =
      co.filter (fun column => fids.contains column) := by
    simp only [Explorer.calcColumnOrder, List.filter_append]
    have h1 : (co.filter (fun column => fids.contains column)).filter
        (fun x => co.contains x) =
        co.filter (fun column => fids.contains column) := by
      refine List.filter_eq_self.mpr fun x hx => ?_
      simpa using List.mem_of_mem_filter hx
    have h2 : ((fids.filter (fun fid =>
        !(co.filter (fun column => fids.contains column)).contains fid)).filter
        (fun x => co.contains x)) = [] := by
      refine List.filter_eq_nil_iff.mpr fun x hx hpx => ?_
      have hxf : x ∈ fids := List.mem_of_mem_filter hx
      have hb : (!(co.filter (fun column => fids.contains column)).contains x)
          = true := (List.mem_filter.mp hx).2
      have hnotclean : x ∉ co.filter (fun column => fids.contains column) :=
        not_mem_of_bnot_contains hb
      have hxco : x ∈ co := by simpa using hpx
      exact hnotclean (List.mem_filter.mpr ⟨hxco, by simpa using hxf⟩)
    rw [h1, h2, List.append_nil]
  have hmissing : (Explorer.calcColumnOrder co fids).filter
      (fun x => !co.contains x) =
      fids.filter (fun fid =>
        !(co.filter (fun column => fids.contains column)).contains fid) := by
    simp only [Explorer.calcColumnOrder, List.filter_append]
    have h3 : (co.filter (fun column => fids.contains column)).filter
        (fun x => !co.contains x) = [] := by
      refine List.filter_eq_nil_iff.mpr fun x hx hpx => ?_
      have hxco : x ∈ co := List.mem_of_mem_filter hx
      have : ¬ x ∈ co := by simpa using hpx
      exact this hxco
    have h4 : ((fids.filter (fun fid =>
        !(co.filter (fun column => fids.contains column)).contains fid)).filter
        (fun x => !co.contains x)) =
        fids.filter (fun fid =>
          !(co.filter (fun column => fids.contains column)).contains fid) := by
      refine List.filter_eq_self.mpr fun x hx => ?_
      have hxf : x ∈ fids := List.mem_of_mem_filter hx
      have hb : (!(co.filter (fun column => fids.contains column)).contains x)
          = true := (List.mem_filter.mp hx).2
      have hnotclean : x ∉ co.filter (fun column => fids.contains column) :=
        not_mem_of_bnot_contains hb
      have hxnco : x ∉ co := fun hxco =>
        hnotclean (List.mem_filter.mpr ⟨hxco, by simpa using hxf⟩)
      exact bnot_contains_of_not_mem hxnco
    rw [h3, h4, List.nil_append]
  refine ⟨?_, ?_⟩
  · rw [hclean]
    exact List.filter_sublist co
  · rw [hclean, hmissing]
    rfl

/-- `TOGGLE_SORT_FIELD` changes only the sorts. -/
theorem toggleSortField_fields (s : Explorer.ExplorerReduceState)
    (fid : String) :
    (Explorer.reducer s (.toggleSortField fid)).dimensions = s.dimensions ∧
    (Explorer.reducer s (.toggleSortField fid)).metrics = s.metrics ∧
    (Explorer.reducer s (.toggleSortField fid)).columnOrder =
      s.columnOrder := by
  by_cases hc : (s.dimensions ++ s.metrics).contains fid = true
  · cases hfind : s.sorts.find? (fun t => t.fieldId == fid) with
    | none =>
      have hred : Explorer.reducer s (.toggleSortField fid) =
          { s with sorts := s.sorts ++ [⟨fid, false⟩] } := by
        simp only [Explorer.reducer]
        rw [hc, hfind]
        rfl
      rw [hred]
      exact ⟨rfl, rfl, rfl⟩
    | some t =>
      have hred : Explorer.reducer s (.toggleSortField fid) =
          { s with sorts := s.sorts.foldl (fun acc sf =>
              if sf.fieldId != fid then acc ++ [sf]
              else if sf.descending then acc
              else acc ++ [{ sf with descending := true }]) [] } := by
        simp only [Explorer.reducer]
        rw [hc, hfind]
        rfl
      rw [hred]
      exact ⟨rfl, rfl, rfl⟩
  · have hc' : (s.dimensions ++ s.metrics).contains fid = false :=
      Bool.not_eq_true _ ▸ eq_false_of_ne_true hc
    have hred : Explorer.reducer s (.toggleSortField fid) = s := by
      simp only [Explorer.reducer]
      rw [hc']
      rfl
    rw [hred]
    exact ⟨rfl, rfl, rfl⟩

/-- Under disjoint, duplicate-free payloads the reducer keeps dimensions and
metrics duplicate-free and disjoint, and the column order duplicate-free and
exactly the active field ids. -/
theorem reachable_inv :
    ∀ s, Explorer.ReachableVia Explorer.DisjointPayload s →
      s.dimensions.Nodup ∧ s.metrics.Nodup ∧
      (∀ x ∈ s.dimensions, x ∉ s.metrics) ∧
      s.columnOrder.Nodup ∧
      (∀ x, x ∈ s.columnOrder ↔ (x ∈ s.dimensions ∨ x ∈ s.metrics)) := by
  intro s h
  induction h with
  | base =>
    refine ⟨List.nodup_nil, List.nodup_nil, ?_, List.nodup_nil, ?_⟩
    · intro x hx
      cases hx
    · intro x
      simp [Explorer.defaultState]
  | step s a hs ha ih =>
    obtain ⟨hd, hm, hdisj, hco, hmem⟩ := ih
    cases a with
    | reset =>
      refine ⟨List.nodup_nil, List.nodup_nil, ?_, List.nodup_nil, ?_⟩
      · intro x hx
        cases hx
      · intro x
        simp [Explorer.reducer, Explorer.defaultState]
    | setState p =>
      obtain ⟨hpd, hpm, hpc, hpdisj⟩ := ha
      have hfids : (p.dimensions ++ p.metrics).Nodup :=
        List.Nodup.append hpd hpm (fun x hx1 hx2 => hpdisj x hx1 hx2)
      have hcalc := calcColumnOrder_mem_nodup hpc hfids
      refine ⟨hpd, hpm, hpdisj, hcalc.1, ?_⟩
      intro x
      show x ∈ Explorer.calcColumnOrder p.columnOrder
        (p.dimensions ++ p.metrics) ↔ x ∈ p.dimensions ∨ x ∈ p.metrics
      rw [hcalc.2 x, List.mem_append]
    | setTableName n => exact ⟨hd, hm, hdisj, hco, hmem⟩
    | toggleDimension fid =>
      have hd' := toggleArrayValue_nodup (v := fid) hd
      have hdisj' : ∀ x ∈ Explorer.toggleArrayValue s.dimensions fid,
          x ∉ s.metrics := by
        intro x hx
        rcases (toggleArrayValue_mem_iff hd).mp hx with ⟨hxa, _⟩ | ⟨rfl, _⟩
        · exact hdisj x hxa
        · exact ha
      have hfids : (Explorer.toggleArrayValue s.dimensions fid ++
          s.metrics).Nodup :=
        List.Nodup.append hd' hm (fun x hx1 hx2 => hdisj' x hx1 hx2)
      have hcalc := calcColumnOrder_mem_nodup hco hfids
      refine ⟨hd', hm, hdisj', hcalc.1, ?_⟩
      intro x
      show x ∈ Explorer.calcColumnOrder s.columnOrder
        (Explorer.toggleArrayValue s.dimensions fid ++ s.metrics) ↔
        x ∈ Explorer.toggleArrayValue s.dimensions fid ∨ x ∈ s.metrics
      rw [hcalc.2 x, List.mem_append]
    | toggleMetric fid =>
      have hm' := toggleArrayValue_nodup (v := fid) hm
      have hdisj' : ∀ x ∈ s.dimensions,
          x ∉ Explorer.toggleArrayValue s.metrics fid := by
        intro x hx hmem'
        rcases (toggleArrayValue_mem_iff hm).mp hmem' with ⟨hxa, _⟩ | ⟨rfl, _⟩
        · exact hdisj x hx hxa
        · exact ha hx
      have hfids : (s.dimensions ++
          Explorer.toggleArrayValue s.metrics fid).Nodup :=
        List.Nodup.append hd hm' (fun x hx1 hx2 => hdisj' x hx1 hx2)
      have hcalc := calcColumnOrder_mem_nodup hco hfids
      refine ⟨hd, hm', hdisj', hcalc.1, ?_⟩
      intro x
      show x ∈ Explorer.calcColumnOrder s.columnOrder
        (s.dimensions ++ Explorer.toggleArrayValue s.metrics fid) ↔
        x ∈ s.dimensions ∨ x ∈ Explorer.toggleArrayValue s.metrics fid
      rw [hcalc.2 x, List.mem_append]
    | toggleSortField fid =>
      obtain ⟨h1, h2, h3⟩ := toggleSortField_fields s fid
      rw [h1, h2, h3]
      exact ⟨hd, hm, hdisj, hco, hmem⟩
    | setSortFields payload => exact ⟨hd, hm, hdisj, hco, hmem⟩
    | setRowLimit n => exact ⟨hd, hm, hdisj, hco, hmem⟩
    | setFilters fl => exact ⟨hd, hm, hdisj, hco, hmem⟩
    | setColumnOrder payload =>
      have hfids : (s.dimensions ++ s.metrics).Nodup :=
        List.Nodup.append hd hm (fun x hx1 hx2 => hdisj x hx1 hx2)
      have hcalc := calcColumnOrder_mem_nodup ha hfids
      refine ⟨hd, hm, hdisj, hcalc.1, ?_⟩
      intro x
      show x ∈ Explorer.calcColumnOrder payload
        (s.dimensions ++ s.metrics) ↔ x ∈ s.dimensions ∨ x ∈ s.metrics
      rw [hcalc.2 x, List.mem_append]

/-- C9 counterexample: with only duplicate-free payload lists assumed, the
sequence toggle dimension `a`, toggle metric `a`, `SET_COLUMN_ORDER []`
reaches a state whose column order holds `a` twice. -/
theorem columnOrder_duplicate_counterexample :
    Explorer.ReachableVia Explorer.DupFreePayload
      (Explorer.reducer (Explorer.reducer (Explorer.reducer
        Explorer.defaultState (.toggleDimension "a")) (.toggleMetric "a"))
        (.setColumnOrder [])) ∧
    (Explorer.reducer (Explorer.reducer (Explorer.reducer
        Explorer.defaultState (.toggleDimension "a")) (.toggleMetric "a"))
        (.setColumnOrder [])).columnOrder = ["a", "a"] ∧
    ¬ (Explorer.reducer (Explorer.reducer (Explorer.reducer
        Explorer.defaultState (.toggleDimension "a")) (.toggleMetric "a"))
        (.setColumnOrder [])).columnOrder.Nodup := by
  refine ⟨?_, by decide, by decide⟩
  exact Explorer.ReachableVia.step _ (.setColumnOrder [])
    (Explorer.ReachableVia.step _ (.toggleMetric "a")
      (Explorer.ReachableVia.step _ (.toggleDimension "a")
        Explorer.ReachableVia.base trivial) trivial) List.nodup_nil

/-- C9 amended: when the payload lists are duplicate-free and dimensions and
metrics are kept disjoint, every reachable state's column order lists the
active field ids exactly once each; `calcColumnOrder` keeps retained columns
in their previous relative order (a sublist of the old order) and appends
the freshly active ids after them. -/
theorem columnOrder_exactly_active_invariant :
    (∀ s, Explorer.ReachableVia Explorer.DisjointPayload s →
      s.columnOrder.Nodup ∧
      ∀ x, x ∈ s.columnOrder ↔ (x ∈ s.dimensions ∨ x ∈ s.metrics)) ∧
    (∀ co fids : List String,
      ((Explorer.calcColumnOrder co fids).filter
        (fun x => co.contains x)).Sublist co ∧
      Explorer.calcColumnOrder co fids =
        (Explorer.calcColumnOrder co fids).filter (fun x => co.contains x) ++
          (Explorer.calcColumnOrder co fids).filter
            (fun x => !co.contains x)) :=
  ⟨fun s h => ⟨(reachable_inv s h).2.2.2.1, (reachable_inv s h).2.2.2.2⟩,
   calcColumnOrder_order⟩

/-- Witness for C9: after toggling dimension `a` from the default state the
column order contains `a`. -/
theorem columnOrder_exactly_active_invariant_witness :
    ("a" : String) ∈ (Explorer.reducer Explorer.defaultState
      (.toggleDimension "a")).columnOrder := by
  have h := columnOrder_exactly_active_invariant.1 _
    (Explorer.ReachableVia.step _ (.toggleDimension "a")
      Explorer.ReachableVia.base (fun hx => by cases hx))
  exact (h.2 "a").mpr (Or.inl (by decide))

end Lightdash
